import Mathlib

/-!
# Todo store of the `mobil` app

A shallow embedding of `src/components/App.js` (the todo store: `addTodo`,
`toggleTodo`, `deleteTodo`, `loadTodos`, `saveTodos` and the two effects of
`App`) and of `src/components/AddTodo.js` (`handleSubmit`).

JavaScript strings are sequences of UTF-16 code units, numbers that hold
integers are `Int`, `Date.now()` is an explicit argument, and a function that
may throw returns `Except`.
-/

namespace Mobil

/-! ## Data model -/

/-- A JavaScript string, as the list of its UTF-16 code units. -/
abbrev JsString := List Nat

/-- UTF-16 code units of one Unicode scalar value. -/
def utf16Char (c : Char) : List Nat :=
  if c.toNat < 65536 then [c.toNat]
  else [55296 + (c.toNat - 65536) / 1024, 56320 + (c.toNat - 65536) % 1024]

/-- The JavaScript string written as the given literal. -/
def utf16 (s : String) : JsString := s.toList.flatMap utf16Char

/-- The object literal `{ id, text, completed }` built by `addTodo`
(App.js lines 42-46). -/
structure Todo where
  id : Int
  text : JsString
  completed : Bool
deriving DecidableEq, Repr

/-! ## Store operations (App.js lines 41-58) -/

/-- App.js `addTodo`, lines 41-48: `setTodos([newTodo, ...todos])` with
`newTodo = { id: Date.now(), text: text, completed: false }`.  `now` is the
value returned by `Date.now()`; the result is the list handed to `setTodos`. -/
def addTodo (todos : List Todo) (now : Int) (text : JsString) : List Todo :=
  let newTodo : Todo := { id := now, text := text, completed := false }
  newTodo :: todos

/-- App.js `toggleTodo`, lines 50-54:
`todos.map(todo => todo.id === id ? { ...todo, completed: !todo.completed } : todo)`. -/
def toggleTodo (todos : List Todo) (id : Int) : List Todo :=
  todos.map fun todo =>
    if todo.id = id then { todo with completed := !todo.completed } else todo

/-- App.js `deleteTodo`, lines 56-58: `todos.filter(todo => todo.id !== id)`. -/
def deleteTodo (todos : List Todo) (id : Int) : List Todo :=
  todos.filter fun todo => todo.id != id

/-- The ids of a list, in order. -/
def ids (todos : List Todo) : List Int := todos.map Todo.id

/-- One store operation together with the data it receives. -/
inductive Op where
  | add (now : Int) (text : JsString)
  | toggle (id : Int)
  | delete (id : Int)
deriving DecidableEq, Repr

/-- Apply one operation to the list. -/
def step (todos : List Todo) : Op → List Todo
  | .add now text => addTodo todos now text
  | .toggle id => toggleTodo todos id
  | .delete id => deleteTodo todos id

/-- Apply a sequence of operations, first to last. -/
def run (todos : List Todo) (ops : List Op) : List Todo :=
  ops.foldl step todos

/-- Every `add` of the sequence receives from `Date.now()` a value that is
not the id of a todo in the list at that moment. -/
def FreshAdds : List Todo → List Op → Prop
  | _, [] => True
  | todos, op :: ops =>
    (match op with
      | .add now _ => now ∉ ids todos
      | _ => True) ∧ FreshAdds (step todos op) ops

/-- The values `Date.now()` returned to the adds of a sequence, in order. -/
def addTimes : List Op → List Int
  | [] => []
  | .add now _ :: ops => now :: addTimes ops
  | .toggle _ :: ops => addTimes ops
  | .delete _ :: ops => addTimes ops

/-! ## `String.prototype.trim` and `AddTodo.handleSubmit` -/

/-- ECMAScript WhiteSpace and LineTerminator code points, the ones `trim`
strips: TAB, LF, VT, FF, CR, SP, NBSP, U+1680, U+2000..U+200A, U+2028,
U+2029, U+202F, U+205F, U+3000 and U+FEFF. -/
def isWhiteSpace (c : Nat) : Bool :=
  c == 9 || c == 10 || c == 11 || c == 12 || c == 13 || c == 32 || c == 160 ||
  c == 5760 || (8192 ≤ c && c ≤ 8202) || c == 8232 || c == 8233 || c == 8239 ||
  c == 8287 || c == 12288 || c == 65279

/-- `String.prototype.trimStart`. -/
def jsTrimStart (s : JsString) : JsString := s.dropWhile isWhiteSpace

/-- `String.prototype.trimEnd`. -/
def jsTrimEnd (s : JsString) : JsString := (s.reverse.dropWhile isWhiteSpace).reverse

/-- `String.prototype.trim`: white space removed from both ends. -/
def jsTrim (s : JsString) : JsString := jsTrimEnd (jsTrimStart s)

/-- ToBoolean of a string: only the empty string is falsy. -/
def truthyString (s : JsString) : Bool := !s.isEmpty

/-- AddTodo.js `handleSubmit`, lines 7-12.  `text` is the component's input
state, `onAdd` the callback prop acting on the parent's state; the result is
the parent's state and the input state after the handler. -/
def handleSubmit {σ : Type} (onAdd : JsString → σ → σ) (text : JsString) (parent : σ) :
    σ × JsString :=
  if truthyString (jsTrim text) then (onAdd (jsTrim text) parent, []) else (parent, text)

/-- The `onAdd` prop `App` passes to `AddTodo` (App.js line 65): `addTodo`
with `Date.now()` returning `now`. -/
def onAddProp (now : Int) : JsString → List Todo → List Todo :=
  fun text todos => addTodo todos now text

/-! ## JSON values

What `JSON.parse` returns and `JSON.stringify` accepts.  A number is kept as
the exact rational its literal denotes; rounding to an IEEE double is outside
the embedding, so the model is exact on the safe integers, where timestamps
live.  An object is the list of its own properties in property order. -/

/-- A JavaScript value built from JSON data. -/
inductive Json where
  | null : Json
  | bool (b : Bool) : Json
  | num (q : ℚ) : Json
  | str (s : JsString) : Json
  | arr (elems : List Json) : Json
  | obj (props : List (JsString × Json)) : Json

/-- The JavaScript value of a todo record: own properties `id`, `text`,
`completed`, in the order the object literal of `addTodo` creates them. -/
def todoJson (t : Todo) : Json :=
  .obj [(utf16 "id", .num (t.id : ℚ)), (utf16 "text", .str t.text),
    (utf16 "completed", .bool t.completed)]

/-- The JavaScript value of a todo list: the array of its records. -/
def toJson (todos : List Todo) : Json := .arr (todos.map todoJson)

/-! ## `JSON.stringify` (ECMAScript SerializeJSONProperty, no replacer, no gap) -/

/-- Lower-case hexadecimal digit, as a code unit. -/
def hexDigit (d : Nat) : Nat := if d < 10 then 48 + d else 87 + d

/-- UnicodeEscape: a backslash, `u`, and four lower-case hex digits. -/
def unicodeEscape (c : Nat) : JsString :=
  [92, 117, hexDigit (c / 4096 % 16), hexDigit (c / 256 % 16), hexDigit (c / 16 % 16),
    hexDigit (c % 16)]

/-- Leading surrogate, U+D800..U+DBFF. -/
def isHighSurrogate (c : Nat) : Bool := 55296 ≤ c && c ≤ 56319

/-- Trailing surrogate, U+DC00..U+DFFF. -/
def isLowSurrogate (c : Nat) : Bool := 56320 ≤ c && c ≤ 57343

/-- QuoteJSONString on one code point that is a single code unit: the short
escapes for BS, TAB, LF, FF, CR, the quote and the backslash, a unicode escape
for the other control characters and for a lone surrogate, else the unit. -/
def quoteUnit (c : Nat) : JsString :=
  if c = 8 then [92, 98]
  else if c = 9 then [92, 116]
  else if c = 10 then [92, 110]
  else if c = 12 then [92, 102]
  else if c = 13 then [92, 114]
  else if c = 34 then [92, 34]
  else if c = 92 then [92, 92]
  else if c < 32 || isHighSurrogate c || isLowSurrogate c then unicodeEscape c
  else [c]

/-- QuoteJSONString without the enclosing quotes: the string is read by code
points, so a surrogate pair is copied and a lone surrogate escaped. -/
def quoteBody : JsString → JsString
  | [] => []
  | [c] => quoteUnit c
  | c :: d :: rest =>
    if isHighSurrogate c && isLowSurrogate d then c :: d :: quoteBody rest
    else quoteUnit c ++ quoteBody (d :: rest)

/-- QuoteJSONString. -/
def quoteJSONString (s : JsString) : JsString := 34 :: (quoteBody s ++ [34])

/-- Decimal digits of a natural number, most significant first. -/
def natToString (n : Nat) : JsString :=
  if n = 0 then [48] else (Nat.digits 10 n).reverse.map (· + 48)

/-- Number::toString on an integer: a minus sign when negative, then the
decimal digits (what JavaScript prints for every safe integer). -/
def intToString (n : Int) : JsString :=
  if n < 0 then 45 :: natToString n.natAbs else natToString n.natAbs

/-- Number::toString.  The text of a number that is not an integer is a
matter of floating point and is taken as the parameter `fmt`. -/
def numberToString (fmt : ℚ → JsString) (q : ℚ) : JsString :=
  if q.den = 1 then intToString q.num else fmt q

mutual
/-- `JSON.stringify(value)`. -/
def jsonStringify (fmt : ℚ → JsString) : Json → JsString
  | .null => [110, 117, 108, 108]
  | .bool true => [116, 114, 117, 101]
  | .bool false => [102, 97, 108, 115, 101]
  | .num q => numberToString fmt q
  | .str s => quoteJSONString s
  | .arr elems => 91 :: (stringifyElems fmt elems ++ [93])
  | .obj props => 123 :: (stringifyProps fmt props ++ [125])
/-- SerializeJSONArray: the elements separated by commas. -/
def stringifyElems (fmt : ℚ → JsString) : List Json → JsString
  | [] => []
  | x :: rest =>
    match rest with
    | [] => jsonStringify fmt x
    | _ :: _ => jsonStringify fmt x ++ 44 :: stringifyElems fmt rest
/-- SerializeJSONObject: `"key":value` members separated by commas. -/
def stringifyProps (fmt : ℚ → JsString) : List (JsString × Json) → JsString
  | [] => []
  | (k, x) :: rest =>
    match rest with
    | [] => quoteJSONString k ++ 58 :: jsonStringify fmt x
    | _ :: _ => quoteJSONString k ++ 58 :: (jsonStringify fmt x ++ 44 :: stringifyProps fmt rest)
end

/-! ## `JSON.parse` (the JSON grammar of ECMA-404, no reviver) -/

/-- JSON white space: TAB, LF, CR, SP. -/
def isJsonWhiteSpace (c : Nat) : Bool := c == 9 || c == 10 || c == 13 || c == 32

/-- Drop leading JSON white space. -/
def skipWs (s : JsString) : JsString := s.dropWhile isJsonWhiteSpace

/-- Decimal digit `0`..`9`. -/
def isDigit (c : Nat) : Bool := 48 ≤ c && c ≤ 57

/-- Value of a hexadecimal digit of either case. -/
def hexValue (c : Nat) : Option Nat :=
  if 48 ≤ c ∧ c ≤ 57 then some (c - 48)
  else if 97 ≤ c ∧ c ≤ 102 then some (c - 87)
  else if 65 ≤ c ∧ c ≤ 70 then some (c - 55)
  else none

/-- Code unit written by four hexadecimal digits. -/
def hex4 (a b c d : Nat) : Option Nat :=
  match hexValue a, hexValue b, hexValue c, hexValue d with
  | some x, some y, some z, some w => some (((x * 16 + y) * 16 + z) * 16 + w)
  | _, _, _, _ => none

/-- Put a decoded code unit in front of the rest of a parsed string. -/
def consUnit (c : Nat) : Option (JsString × JsString) → Option (JsString × JsString)
  | some (s, rest) => some (c :: s, rest)
  | none => none

/-- A JSON string after its opening quote: the decoded string and the input
left after the closing quote.  A raw control character, an unknown escape or
a missing closing quote is an error. -/
def parseStringBody : JsString → Option (JsString × JsString)
  | [] => none
  | c :: rest =>
    if c = 34 then some ([], rest)
    else if c = 92 then
      match rest with
      | [] => none
      | e :: r =>
        if e = 34 then consUnit 34 (parseStringBody r)
        else if e = 92 then consUnit 92 (parseStringBody r)
        else if e = 47 then consUnit 47 (parseStringBody r)
        else if e = 98 then consUnit 8 (parseStringBody r)
        else if e = 102 then consUnit 12 (parseStringBody r)
        else if e = 110 then consUnit 10 (parseStringBody r)
        else if e = 114 then consUnit 13 (parseStringBody r)
        else if e = 116 then consUnit 9 (parseStringBody r)
        else if e = 117 then
          match r with
          | a :: b :: c' :: d :: r' =>
            match hex4 a b c' d with
            | some u => consUnit u (parseStringBody r')
            | none => none
          | _ => none
        else none
    else if c < 32 then none
    else consUnit c (parseStringBody rest)

/-- Value of a run of decimal digits. -/
def digitsValue (ds : List Nat) : Nat := ds.foldl (fun acc d => 10 * acc + (d - 48)) 0

/-- The integer part of a JSON number: `0`, or a non-zero digit and the
digits after it. -/
def parseInteger (s : JsString) : Option (Nat × JsString) :=
  match s with
  | [] => none
  | d :: r =>
    if d = 48 then some (0, r)
    else if 49 ≤ d ∧ d ≤ 57 then
      some (digitsValue (d :: r.takeWhile isDigit), r.dropWhile isDigit)
    else none

/-- The optional fraction of a JSON number: its value, 0 when absent. -/
def parseFraction (s : JsString) : Option (ℚ × JsString) :=
  match s with
  | 46 :: r =>
    if r.takeWhile isDigit = [] then none
    else some ((digitsValue (r.takeWhile isDigit) : ℚ) / (10 : ℚ) ^ (r.takeWhile isDigit).length,
      r.dropWhile isDigit)
  | _ => some (0, s)

/-- The digits of an exponent, after its optional sign: the power of ten. -/
def parseExponentDigits (neg : Bool) (r : JsString) : Option (ℚ × JsString) :=
  if r.takeWhile isDigit = [] then none
  else some (if neg then ((10 : ℚ) ^ digitsValue (r.takeWhile isDigit))⁻¹
      else (10 : ℚ) ^ digitsValue (r.takeWhile isDigit), r.dropWhile isDigit)

/-- The optional exponent of a JSON number: the power of ten it multiplies
by, 1 when absent. -/
def parseExponent (s : JsString) : Option (ℚ × JsString) :=
  match s with
  | [] => some (1, s)
  | e :: r =>
    if e = 101 ∨ e = 69 then
      match r with
      | 45 :: r' => parseExponentDigits true r'
      | 43 :: r' => parseExponentDigits false r'
      | _ => parseExponentDigits false r
    else some (1, s)

/-- A JSON number after its optional minus sign. -/
def parseUnsigned (s : JsString) : Option (ℚ × JsString) :=
  match parseInteger s with
  | none => none
  | some (n, s2) =>
    match parseFraction s2 with
    | none => none
    | some (f, s3) =>
      match parseExponent s3 with
      | none => none
      | some (e, s4) => some (((n : ℚ) + f) * e, s4)

/-- A JSON number. -/
def parseNumber (s : JsString) : Option (ℚ × JsString) :=
  match s with
  | 45 :: r =>
    match parseUnsigned r with
    | some (q, rest) => some (-q, rest)
    | none => none
  | _ => parseUnsigned s

/-- The array index a property key stands for, if it is one: the canonical
decimal text of an integer below 2^32 - 1. -/
def arrayIndex? (k : JsString) : Option Nat :=
  match k with
  | [] => none
  | d :: r =>
    if (d :: r).all isDigit && (d != 48 || r.isEmpty) &&
        decide (digitsValue (d :: r) < 4294967295)
    then some (digitsValue (d :: r))
    else none

/-- Add a new array-index property: index keys come first, ascending. -/
def insertIndexed (i : Nat) (k : JsString) (v : Json) :
    List (JsString × Json) → List (JsString × Json)
  | [] => [(k, v)]
  | (k', v') :: rest =>
    match arrayIndex? k' with
    | some j =>
      if j < i then (k', v') :: insertIndexed i k v rest else (k, v) :: (k', v') :: rest
    | none => (k, v) :: (k', v') :: rest

/-- Overwrite the value of an existing property, keeping its place. -/
def replaceValue (k : JsString) (v : Json) :
    List (JsString × Json) → List (JsString × Json)
  | [] => []
  | (k', v') :: rest =>
    if k' = k then (k', v) :: rest else (k', v') :: replaceValue k v rest

/-- CreateDataProperty on an ordinary object: a repeated key overwrites, a
new array-index key goes among the index keys, any other new key goes last. -/
def objSet (props : List (JsString × Json)) (k : JsString) (v : Json) :
    List (JsString × Json) :=
  if props.any (fun p => p.1 == k) then replaceValue k v props
  else
    match arrayIndex? k with
    | some i => insertIndexed i k v props
    | none => props ++ [(k, v)]

mutual
/-- One JSON value, leading white space allowed: the value and the input left
after it.  The first argument bounds the depth of the calls. -/
def parseValue : Nat → JsString → Option (Json × JsString)
  | 0, _ => none
  | fuel + 1, s =>
    match skipWs s with
    | [] => none
    | c :: r =>
      if c = 34 then
        match parseStringBody r with
        | some (str, r') => some (.str str, r')
        | none => none
      else if c = 91 then
        match skipWs r with
        | 93 :: r' => some (.arr [], r')
        | _ => parseElems fuel r []
      else if c = 123 then
        match skipWs r with
        | 125 :: r' => some (.obj [], r')
        | _ => parseProps fuel r []
      else if c = 45 ∨ isDigit c = true then
        match parseNumber (c :: r) with
        | some (q, r') => some (.num q, r')
        | none => none
      else
        match c :: r with
        | 116 :: 114 :: 117 :: 101 :: r' => some (.bool true, r')
        | 102 :: 97 :: 108 :: 115 :: 101 :: r' => some (.bool false, r')
        | 110 :: 117 :: 108 :: 108 :: r' => some (.null, r')
        | _ => none
/-- The elements of a non-empty array, up to and including the closing
bracket; `acc` holds the elements read so far. -/
def parseElems : Nat → JsString → List Json → Option (Json × JsString)
  | 0, _, _ => none
  | fuel + 1, s, acc =>
    match parseValue fuel s with
    | none => none
    | some (v, r) =>
      match skipWs r with
      | 44 :: r' => parseElems fuel r' (acc ++ [v])
      | 93 :: r' => some (.arr (acc ++ [v]), r')
      | _ => none
/-- The members of a non-empty object, up to and including the closing
brace; `acc` holds the properties created so far. -/
def parseProps : Nat → JsString → List (JsString × Json) → Option (Json × JsString)
  | 0, _, _ => none
  | fuel + 1, s, acc =>
    match skipWs s with
    | 34 :: r =>
      match parseStringBody r with
      | none => none
      | some (k, r1) =>
        match skipWs r1 with
        | 58 :: r2 =>
          match parseValue fuel r2 with
          | none => none
          | some (v, r3) =>
            match skipWs r3 with
            | 44 :: r4 => parseProps fuel r4 (objSet acc k v)
            | 125 :: r4 => some (.obj (objSet acc k v), r4)
            | _ => none
        | _ => none
    | _ => none
end

/-- `JSON.parse(text)`: the value, or `none` where JavaScript throws a
SyntaxError.  Every call of the parser consumes a code unit at least every
second level, so `2 * length + 2` levels are enough for every text. -/
def jsonParse (s : JsString) : Option Json :=
  match parseValue (2 * s.length + 2) s with
  | some (v, rest) => if skipWs rest = [] then some v else none
  | none => none

/-! ## AsyncStorage, `loadTodos`, `saveTodos` and the effects of `App` -/

/-- An exception value: a storage-access error with its code, or the
SyntaxError of `JSON.parse`. -/
inductive JsError where
  | storage (code : Nat)
  | malformedJson
deriving DecidableEq, Repr

/-- A line written by `console.log`: line 29 or line 37 of App.js. -/
inductive LogEntry where
  | loadError (e : JsError)
  | saveError (e : JsError)
deriving DecidableEq, Repr

/-- The key-value store behind AsyncStorage. -/
abbrev Storage := JsString → Option JsString

/-- The key `'todos'`. -/
def todosKey : JsString := utf16 "todos"

/-- Awaiting `AsyncStorage.getItem(key)`: the stored string, `null` (here
`none`) when the key is absent, or a rejection when the access fails. -/
def getItem (store : Storage) (fault : Option JsError) (key : JsString) :
    Except JsError (Option JsString) :=
  match fault with
  | some e => .error e
  | none => .ok (store key)

/-- Awaiting `AsyncStorage.setItem(key, value)`: the store with the key
overwritten, or a rejection when the access fails. -/
def setItem (store : Storage) (fault : Option JsError) (key value : JsString) :
    Except JsError Storage :=
  match fault with
  | some e => .error e
  | none => .ok fun k => if k = key then some value else store k

/-- The state of `App`: the `todos` state variable and the console. -/
structure AppState where
  todos : Json
  console : List LogEntry

/-- The `try` block of `loadTodos`, App.js lines 24-27, given the outcome of
awaiting `getItem('todos')`: the argument passed to `setTodos` when it is
called, `none` when the `if` is not entered, or the exception thrown. -/
def loadTodosTry (read : Except JsError (Option JsString)) : Except JsError (Option Json) :=
  match read with
  | .error e => .error e
  | .ok none => .ok none
  | .ok (some savedTodos) =>
    if truthyString savedTodos then
      match jsonParse savedTodos with
      | some v => .ok (some v)
      | none => .error .malformedJson
    else .ok none

/-- App.js `loadTodos`, lines 22-31: the `try` block, with every exception
caught and logged.  `.ok` is normal completion, `.error` an exception that
leaves the function. -/
def loadTodos (state : AppState) (read : Except JsError (Option JsString)) :
    Except JsError AppState :=
  match loadTodosTry read with
  | .ok (some v) => .ok { state with todos := v }
  | .ok none => .ok state
  | .error e => .ok { state with console := state.console ++ [.loadError e] }

/-- App.js `saveTodos`, lines 33-39: `setItem('todos', JSON.stringify(todos))`
with every exception caught and logged. -/
def saveTodos (fmt : ℚ → JsString) (state : AppState) (store : Storage)
    (fault : Option JsError) : Except JsError (AppState × Storage) :=
  match setItem store fault todosKey (jsonStringify fmt state.todos) with
  | .ok store' => .ok (state, store')
  | .error e => .ok ({ state with console := state.console ++ [.saveError e] }, store)

/-- What the start of the app leaves behind: the state, the store, and the
payloads handed to `setItem('todos', ·)` in the order they were issued. -/
structure Startup where
  state : AppState
  store : Storage
  writes : List JsString

/-- The start of `App`, lines 10-20, on a store whose writes succeed.  The
first render has `todos = []` (line 10).  The effects then run in source
order: the load effect (lines 13-15) calls `loadTodos`, which issues the
read; the save effect (lines 18-20) calls `saveTodos`, which issues a write
of `JSON.stringify(todos)` for the `todos` of that render.  The read, issued
first, is served from the store as it was.  When `loadTodos` calls `setTodos`
the component renders again with the parsed value and, `todos` having
changed, the save effect runs again. -/
def startup (fmt : ℚ → JsString) (store : Storage) (readFault : Option JsError) :
    Except JsError Startup := do
  let s0 : AppState := { todos := .arr [], console := [] }
  let read := getItem store readFault todosKey
  let (s1, store1) ← saveTodos fmt s0 store none
  let s2 ← loadTodos s1 read
  match loadTodosTry read with
  | .ok (some _) =>
    let (s3, store2) ← saveTodos fmt s2 store1 none
    pure { state := s3, store := store2,
           writes := [jsonStringify fmt s0.todos, jsonStringify fmt s2.todos] }
  | _ => pure { state := s2, store := store1, writes := [jsonStringify fmt s0.todos] }

/-- The outcome of reading key `'todos'` is not valid serialized data: the
read failed, the key is absent, or the stored string is one `JSON.parse`
rejects. -/
def ReadNotValid : Except JsError (Option JsString) → Prop
  | .error _ => True
  | .ok none => True
  | .ok (some s) => jsonParse s = none

/-! ## Theorems: store operations -/

theorem toggleTodo_length (L : List Todo) (i : Int) :
    (toggleTodo L i).length = L.length := by
  simp [toggleTodo]

theorem ids_toggleTodo (L : List Todo) (i : Int) : ids (toggleTodo L i) = ids L := by
  induction L with
  | nil => rfl
  | cons t L ih =>
    simp only [ids, toggleTodo, List.map_cons] at ih ⊢
    rw [ih]
    by_cases h : t.id = i <;> simp [h]

theorem deleteTodo_sublist (L : List Todo) (i : Int) : (deleteTodo L i).Sublist L :=
  List.filter_sublist L

theorem deleteTodo_of_absent (L : List Todo) (i : Int) (h : ∀ t ∈ L, t.id ≠ i) :
    deleteTodo L i = L := by
  unfold deleteTodo
  rw [List.filter_eq_self]
  intro t ht
  simpa using h t ht

theorem nodup_ids_addTodo (L : List Todo) (now : Int) (s : JsString)
    (hL : (ids L).Nodup) (hfresh : now ∉ ids L) : (ids (addTodo L now s)).Nodup := by
  simp only [addTodo, ids, List.map_cons]
  exact List.nodup_cons.mpr ⟨hfresh, hL⟩

theorem nodup_ids_toggleTodo (L : List Todo) (i : Int) (hL : (ids L).Nodup) :
    (ids (toggleTodo L i)).Nodup := by
  rw [ids_toggleTodo]; exact hL

theorem nodup_ids_deleteTodo (L : List Todo) (i : Int) (hL : (ids L).Nodup) :
    (ids (deleteTodo L i)).Nodup :=
  ((deleteTodo_sublist L i).map Todo.id).nodup hL

theorem nodup_ids_run (ops : List Op) :
    ∀ L : List Todo, (ids L).Nodup → FreshAdds L ops → (ids (run L ops)).Nodup := by
  induction ops with
  | nil => intro L hL _; simpa [run] using hL
  | cons op ops ih =>
    intro L hL hf
    obtain ⟨h1, h2⟩ := hf
    have hstep : (ids (step L op)).Nodup := by
      cases op with
      | add now text => exact nodup_ids_addTodo L now text hL h1
      | toggle id => exact nodup_ids_toggleTodo L id hL
      | delete id => exact nodup_ids_deleteTodo L id hL
    simpa [run] using ih (step L op) hstep h2

theorem ids_deleteTodo_subset (L : List Todo) (i : Int) : ids (deleteTodo L i) ⊆ ids L :=
  ((deleteTodo_sublist L i).map Todo.id).subset

theorem freshAdds_of_increasing (ops : List Op) :
    ∀ L : List Todo, (∀ i ∈ ids L, ∀ t ∈ addTimes ops, i < t) →
      (addTimes ops).Pairwise (· < ·) → FreshAdds L ops := by
  induction ops with
  | nil => intro L _ _; trivial
  | cons op ops ih =>
    intro L hlt hpw
    cases op with
    | add now text =>
      simp only [addTimes, List.pairwise_cons] at hpw
      refine ⟨fun hmem => ?_, ih _ ?_ hpw.2⟩
      · exact absurd (hlt now hmem now (List.mem_cons_self _ _)) (lt_irrefl now)
      · intro i hi t ht
        simp only [step, addTodo, ids, List.map_cons, List.mem_cons] at hi
        rcases hi with rfl | hi
        · exact hpw.1 t ht
        · exact hlt i hi t (List.mem_cons_of_mem _ ht)
    | toggle id =>
      refine ⟨trivial, ih _ ?_ hpw⟩
      intro i hi t ht
      rw [step, ids_toggleTodo] at hi
      exact hlt i hi t ht
    | delete id =>
      refine ⟨trivial, ih _ ?_ hpw⟩
      intro i hi t ht
      exact hlt i (ids_deleteTodo_subset L id hi) t ht

/-- C1: `addTodo` called with text `s` when `Date.now()` returns `t` hands
`setTodos` exactly `{id: t, text: s, completed: false}` followed by the old
list in its old order; the length grows by one, the new item is first and
its `completed` flag is false, so two adds leave the newer text first.  This
holds for every `s`, in particular for every non-empty trimmed one. -/
theorem addTodo_prepends (L : List Todo) (t : Int) (s : JsString) :
    addTodo L t s = { id := t, text := s, completed := false } :: L ∧
    (addTodo L t s).length = L.length + 1 ∧
    (addTodo L t s).head? = some { id := t, text := s, completed := false } ∧
    (addTodo L t s).tail = L ∧
    ((addTodo L t s).head?.map Todo.completed) = some false ∧
    (∀ (t2 : Int) (s2 : JsString),
      (addTodo (addTodo L t s) t2 s2).map Todo.text = s2 :: s :: L.map Todo.text) := by
  simp [addTodo]

/-- C3: `toggleTodo i` keeps length and order; at every position a todo
whose id is `i` keeps id and text and has `completed` negated, a todo whose
id differs is unchanged; when no todo has id `i` the list is returned as it
was. -/
theorem toggleTodo_spec (L : List Todo) (i : Int) :
    (toggleTodo L i).length = L.length ∧
    (∀ k : Nat, ∀ t : Todo, L[k]? = some t →
      (t.id = i → (toggleTodo L i)[k]? =
        some { id := t.id, text := t.text, completed := !t.completed }) ∧
      (t.id ≠ i → (toggleTodo L i)[k]? = some t)) ∧
    ((∀ t ∈ L, t.id ≠ i) → toggleTodo L i = L) := by
  refine ⟨toggleTodo_length L i, ?_, ?_⟩
  · intro k t hk
    constructor
    · intro h
      simp [toggleTodo, List.getElem?_map, hk, h]
    · intro h
      simp [toggleTodo, List.getElem?_map, hk, h]
  · intro h
    unfold toggleTodo
    conv_rhs => rw [← List.map_id L]
    apply List.map_congr_left
    intro t ht
    simp [h t ht]

/-- C4: toggling the same id twice gives back the original list. -/
theorem toggleTodo_toggleTodo (L : List Todo) (i : Int) :
    toggleTodo (toggleTodo L i) i = L := by
  unfold toggleTodo
  rw [List.map_map]
  conv_rhs => rw [← List.map_id L]
  apply List.map_congr_left
  intro t _
  obtain ⟨tid, ttext, tdone⟩ := t
  by_cases h : tid = i
  · simp [h]
  · simp [h]

/-- C5: on a list with pairwise distinct ids, `deleteTodo i` returns the
list unchanged when no todo has id `i`; when a todo `x` has id `i`, the list
is `pre ++ x :: post` and the result is `pre ++ post`: one shorter, without
id `i`, every other todo kept unchanged and in order. -/
theorem deleteTodo_spec (L : List Todo) (i : Int) (hL : (ids L).Nodup) :
    ((∀ t ∈ L, t.id ≠ i) → deleteTodo L i = L) ∧
    (∀ x ∈ L, x.id = i →
      (∃ pre post, L = pre ++ x :: post ∧ deleteTodo L i = pre ++ post) ∧
      (deleteTodo L i).length + 1 = L.length ∧
      (deleteTodo L i).length = L.length - 1 ∧
      (∀ t ∈ deleteTodo L i, t.id ≠ i) ∧
      (∀ t ∈ L, t.id ≠ i → t ∈ deleteTodo L i) ∧
      (deleteTodo L i).Sublist L) := by
  refine ⟨deleteTodo_of_absent L i, ?_⟩
  intro x hx hxi
  obtain ⟨pre, post, rfl⟩ := List.append_of_mem hx
  have hnd : (pre.map Todo.id ++ x.id :: post.map Todo.id).Nodup := by
    simpa [ids] using hL
  have hpre : ∀ t ∈ pre, t.id ≠ i := by
    intro t ht h
    have hd := (List.nodup_append.mp hnd).2.2
    exact hd (List.mem_map_of_mem Todo.id ht)
      (by rw [h, ← hxi]; exact List.mem_cons_self _ _)
  have hpost : ∀ t ∈ post, t.id ≠ i := by
    intro t ht h
    have hc := (List.nodup_cons.mp (List.nodup_append.mp hnd).2.1).1
    exact hc (by rw [hxi, ← h]; exact List.mem_map_of_mem Todo.id ht)
  have hdel : deleteTodo (pre ++ x :: post) i = pre ++ post := by
    have h1 : deleteTodo pre i = pre := deleteTodo_of_absent pre i hpre
    have h2 : deleteTodo post i = post := deleteTodo_of_absent post i hpost
    unfold deleteTodo at h1 h2 ⊢
    rw [List.filter_append, List.filter_cons, h1, h2]
    simp [hxi]
  refine ⟨⟨pre, post, rfl, hdel⟩, ?_, ?_, ?_, ?_, deleteTodo_sublist _ i⟩
  · rw [hdel]; simp; omega
  · rw [hdel]; simp
  · intro t ht
    rw [hdel] at ht
    rcases List.mem_append.mp ht with h | h
    · exact hpre t h
    · exact hpost t h
  · intro t ht hne
    rw [hdel]
    rcases List.mem_append.mp ht with h | h
    · exact List.mem_append_left _ h
    · rcases List.mem_cons.mp h with h | h
      · exact absurd (h ▸ hxi) hne
      · exact List.mem_append_right _ h

/-- C5 at a concrete list: deleting id 2 from the todos with ids 3, 2, 1. -/
theorem deleteTodo_spec_witness :
    (ids [⟨3, [99], false⟩, ⟨2, [98], true⟩, ⟨1, [97], false⟩]).Nodup ∧
    deleteTodo [⟨3, [99], false⟩, ⟨2, [98], true⟩, ⟨1, [97], false⟩] 2 =
      [⟨3, [99], false⟩, ⟨1, [97], false⟩] ∧
    (deleteTodo [⟨3, [99], false⟩, ⟨2, [98], true⟩, ⟨1, [97], false⟩] 2).length + 1 = 3 :=
  ⟨by decide, by decide,
    ((deleteTodo_spec [⟨3, [99], false⟩, ⟨2, [98], true⟩, ⟨1, [97], false⟩] 2
      (by decide)).2 ⟨2, [98], true⟩ (by decide) rfl).2.1⟩

/-- C6 as stated fails: when `Date.now()` returns a value that is already
the id of a todo, `addTodo` produces a list with a repeated id. -/
theorem addTodo_breaks_distinct_ids :
    ¬ (∀ (L : List Todo) (now : Int) (text : JsString),
        (ids L).Nodup → (ids (addTodo L now text)).Nodup) := by
  intro h
  exact absurd (h [⟨5, [97], false⟩] 5 [98] (by decide)) (by decide)

/-- C6, amended: from a list with pairwise distinct ids, `toggleTodo` and
`deleteTodo` always give a list with pairwise distinct ids, `addTodo` does
so whenever the value returned by `Date.now()` is not already an id of the
list, and so does every sequence of operations whose adds all receive such
a value; in particular every list reached that way from the empty list, as
happens whenever successive values of `Date.now()` strictly increase. -/
theorem distinct_ids_preserved (L : List Todo) (hL : (ids L).Nodup) :
    (∀ (now : Int) (text : JsString), now ∉ ids L → (ids (addTodo L now text)).Nodup) ∧
    (∀ i : Int, (ids (toggleTodo L i)).Nodup) ∧
    (∀ i : Int, (ids (deleteTodo L i)).Nodup) ∧
    (∀ ops : List Op, FreshAdds L ops → (ids (run L ops)).Nodup) ∧
    (∀ ops : List Op, FreshAdds [] ops → (ids (run [] ops)).Nodup) ∧
    (∀ ops : List Op, (addTimes ops).Pairwise (· < ·) → (ids (run [] ops)).Nodup) :=
  ⟨fun now text h => nodup_ids_addTodo L now text hL h,
   fun i => nodup_ids_toggleTodo L i hL,
   fun i => nodup_ids_deleteTodo L i hL,
   fun ops h => nodup_ids_run ops L hL h,
   fun ops h => nodup_ids_run ops [] List.nodup_nil h,
   fun ops h => nodup_ids_run ops [] List.nodup_nil
     (freshAdds_of_increasing ops [] (fun i hi => absurd hi (List.not_mem_nil i)) h)⟩

/-- C6 amended, at a concrete list and a concrete run of add, toggle,
delete. -/
theorem distinct_ids_preserved_witness :
    (ids [⟨5, [97], false⟩]).Nodup ∧
    (ids (run [⟨5, [97], false⟩] [.add 7 [98], .toggle 5, .delete 7, .add 9 [99]])).Nodup :=
  ⟨by decide,
    (distinct_ids_preserved [⟨5, [97], false⟩] (by decide)).2.2.2.1
      [.add 7 [98], .toggle 5, .delete 7, .add 9 [99]]
      (by simp [FreshAdds, step, addTodo, toggleTodo, deleteTodo, ids])⟩

/-! ## Theorems: trimming and the add form -/

theorem jsTrimEnd_eq_rdropWhile (s : JsString) :
    jsTrimEnd s = List.rdropWhile isWhiteSpace s := rfl

theorem jsTrim_head_not_whiteSpace (s : JsString) (c : Nat)
    (h : (jsTrim s).head? = some c) : isWhiteSpace c = false := by
  have hpre : (jsTrim s) <+: (jsTrimStart s) := by
    rw [jsTrim, jsTrimEnd_eq_rdropWhile]
    exact List.rdropWhile_prefix _ _
  obtain ⟨r, hr⟩ := hpre
  cases hj : jsTrim s with
  | nil => rw [hj] at h; simp at h
  | cons a v =>
    rw [hj] at h hr
    simp only [List.head?_cons, Option.some.injEq] at h
    subst h
    have hne : List.dropWhile isWhiteSpace s ≠ [] := by
      intro h0
      rw [jsTrimStart, h0] at hr
      simp at hr
    have hnot := List.head_dropWhile_not isWhiteSpace s hne
    have hhead : (List.dropWhile isWhiteSpace s).head hne = a := by
      have : List.dropWhile isWhiteSpace s = a :: (v ++ r) := by
        rw [← List.cons_append]; exact hr.symm
      simp [this]
    rw [hhead] at hnot
    exact hnot

theorem jsTrim_last_not_whiteSpace (s : JsString) (c : Nat)
    (h : (jsTrim s).getLast? = some c) : isWhiteSpace c = false := by
  have hne : List.rdropWhile isWhiteSpace (jsTrimStart s) ≠ [] := by
    intro h0
    rw [jsTrim, jsTrimEnd_eq_rdropWhile, h0] at h
    simp at h
  have hnot := List.rdropWhile_last_not isWhiteSpace (jsTrimStart s) hne
  rw [jsTrim, jsTrimEnd_eq_rdropWhile, List.getLast?_eq_getLast _ hne] at h
  simp only [Option.some.injEq] at h
  rw [h] at hnot
  simpa using hnot

theorem jsTrim_idempotent (s : JsString) : jsTrim (jsTrim s) = jsTrim s := by
  have hstart : jsTrimStart (jsTrim s) = jsTrim s := by
    cases hj : jsTrim s with
    | nil => rfl
    | cons a v =>
      have ha := jsTrim_head_not_whiteSpace s a (by rw [hj]; rfl)
      simp [jsTrimStart, List.dropWhile_cons, ha]
  have hend : jsTrimEnd (jsTrim s) = jsTrim s := by
    conv_lhs => rw [jsTrim]
    rw [jsTrimEnd_eq_rdropWhile, jsTrimEnd_eq_rdropWhile, List.rdropWhile_idempotent]
    rfl
  conv_lhs => rw [jsTrim, hstart, hend]

theorem jsTrim_eq_nil_iff (s : JsString) :
    jsTrim s = [] ↔ ∀ c ∈ s, isWhiteSpace c = true := by
  rw [jsTrim, jsTrimEnd_eq_rdropWhile, List.rdropWhile_eq_nil_iff]
  constructor
  · intro h
    have h0 : jsTrimStart s = [] := by
      cases hj : jsTrimStart s with
      | nil => rfl
      | cons a v =>
        have hne : List.dropWhile isWhiteSpace s ≠ [] := by
          intro h0; rw [jsTrimStart, h0] at hj; simp at hj
        have hnot := List.head_dropWhile_not isWhiteSpace s hne
        have hhead : (List.dropWhile isWhiteSpace s).head hne = a := by
          have : List.dropWhile isWhiteSpace s = a :: v := hj
          simp [this]
        rw [hhead] at hnot
        have := h a (by rw [hj]; exact List.mem_cons_self _ _)
        rw [this] at hnot
        exact absurd hnot (by decide)
    exact List.dropWhile_eq_nil_iff.mp h0
  · intro h c hc
    exact h c ((List.dropWhile_sublist isWhiteSpace).subset hc)

theorem handleSubmit_of_blank {σ : Type} (onAdd : JsString → σ → σ) (text : JsString)
    (parent : σ) (h : jsTrim text = []) :
    handleSubmit onAdd text parent = (parent, text) := by
  simp [handleSubmit, truthyString, h]

theorem handleSubmit_of_not_blank {σ : Type} (onAdd : JsString → σ → σ) (text : JsString)
    (parent : σ) (h : jsTrim text ≠ []) :
    handleSubmit onAdd text parent = (onAdd (jsTrim text) parent, []) := by
  simp [handleSubmit, truthyString, h]

/-- C2 as stated fails: `addTodo` itself never looks at the text, so called
with the empty string or with three blanks it still prepends a todo. -/
theorem addTodo_blank_not_noop :
    ¬ (∀ (L : List Todo) (now : Int) (text : JsString),
        jsTrim text = [] → addTodo L now text = L) := by
  intro h
  exact absurd (h [] 0 [32, 32, 32] (by decide)) (by decide)

/-- C2, amended: for a text that is empty after trimming, the add path the
user reaches, `AddTodo.handleSubmit` wired to `App.addTodo`, is a no-op:
`addTodo` is not called, the list stays `L` and the input keeps its text.
`App.addTodo` called directly performs no check and prepends a todo with
that text. -/
theorem submit_blank_noop (L : List Todo) (now : Int) (text : JsString)
    (h : jsTrim text = []) :
    handleSubmit (onAddProp now) text L = (L, text) ∧
    (handleSubmit (fun a (calls : List JsString) => calls ++ [a]) text []).1 = [] ∧
    addTodo L now text = { id := now, text := text, completed := false } :: L :=
  ⟨handleSubmit_of_blank _ text L h,
   by rw [handleSubmit_of_blank _ text [] h],
   rfl⟩

/-- C2 amended, at the text of three blanks and a one-item list. -/
theorem submit_blank_noop_witness :
    jsTrim (utf16 "   ") = [] ∧
    handleSubmit (onAddProp 1700000000000) (utf16 "   ") [⟨5, utf16 "A", false⟩] =
      ([⟨5, utf16 "A", false⟩], utf16 "   ") :=
  ⟨by decide,
   (submit_blank_noop [⟨5, utf16 "A", false⟩] 1700000000000 (utf16 "   ") (by decide)).1⟩

/-- C9: `handleSubmit` calls `onAdd` exactly when `text.trim()` is
non-empty, then with `text.trim()` as argument, once, and resets the input
to the empty string; when `text.trim()` is empty nothing is called and the
input keeps its text.  So a todo created through the form has a text that
is non-empty and has no white space at either end. -/
theorem handleSubmit_spec {σ : Type} (onAdd : JsString → σ → σ) (text : JsString)
    (parent : σ) :
    (jsTrim text ≠ [] → handleSubmit onAdd text parent = (onAdd (jsTrim text) parent, [])) ∧
    (jsTrim text = [] → handleSubmit onAdd text parent = (parent, text)) ∧
    (handleSubmit (fun a (calls : List JsString) => calls ++ [a]) text []).1 =
      (if jsTrim text = [] then [] else [jsTrim text]) ∧
    (∀ (L : List Todo) (now : Int),
      (handleSubmit (onAddProp now) text L).1 = L ∨
      ∃ x : JsString,
        (handleSubmit (onAddProp now) text L).1 =
          { id := now, text := x, completed := false } :: L ∧
        x ≠ [] ∧ jsTrim x = x ∧
        (∀ c, x.head? = some c → isWhiteSpace c = false) ∧
        (∀ c, x.getLast? = some c → isWhiteSpace c = false)) := by
  refine ⟨handleSubmit_of_not_blank onAdd text parent,
    handleSubmit_of_blank onAdd text parent, ?_, ?_⟩
  · by_cases h : jsTrim text = []
    · rw [handleSubmit_of_blank _ text [] h]; simp [h]
    · rw [handleSubmit_of_not_blank _ text [] h]; simp [h]
  · intro L now
    by_cases h : jsTrim text = []
    · left
      rw [handleSubmit_of_blank _ text L h]
    · right
      refine ⟨jsTrim text, ?_, h, jsTrim_idempotent text,
        jsTrim_head_not_whiteSpace text, jsTrim_last_not_whiteSpace text⟩
      rw [handleSubmit_of_not_blank _ text L h]
      rfl

/-! ## Theorems: `JSON.parse` reads back what `JSON.stringify` writes -/

theorem hexValue_hexDigit (d : Nat) (h : d < 16) : hexValue (hexDigit d) = some d := by
  unfold hexValue hexDigit
  by_cases h10 : d < 10
  · rw [if_pos h10, if_pos (by omega)]
    congr 1; omega
  · rw [if_neg h10, if_neg (by omega), if_pos (by omega)]
    congr 1; omega

theorem hex4_unicodeEscape (c : Nat) (h : c < 65536) :
    hex4 (hexDigit (c / 4096 % 16)) (hexDigit (c / 256 % 16)) (hexDigit (c / 16 % 16))
      (hexDigit (c % 16)) = some c := by
  unfold hex4
  rw [hexValue_hexDigit _ (Nat.mod_lt _ (by decide)),
    hexValue_hexDigit _ (Nat.mod_lt _ (by decide)),
    hexValue_hexDigit _ (Nat.mod_lt _ (by decide)),
    hexValue_hexDigit _ (Nat.mod_lt _ (by decide))]
  simp only [Option.some.injEq]
  omega

theorem parseStringBody_unicodeEscape (c : Nat) (h : c < 65536) (rest : JsString) :
    parseStringBody (unicodeEscape c ++ rest) = consUnit c (parseStringBody rest) := by
  simp only [unicodeEscape, List.cons_append, List.nil_append]
  rw [parseStringBody]
  simp only [show ¬ ((92 : Nat) = 34) by decide, if_false, if_true]
  simp only [show ¬ ((117 : Nat) = 34) by decide, show ¬ ((117 : Nat) = 92) by decide,
    show ¬ ((117 : Nat) = 47) by decide, show ¬ ((117 : Nat) = 98) by decide,
    show ¬ ((117 : Nat) = 102) by decide, show ¬ ((117 : Nat) = 110) by decide,
    show ¬ ((117 : Nat) = 114) by decide, show ¬ ((117 : Nat) = 116) by decide,
    if_false, if_true]
  rw [hex4_unicodeEscape c h]

theorem parseStringBody_raw (c : Nat) (rest : JsString) (h34 : c ≠ 34) (h92 : c ≠ 92)
    (h32 : ¬ c < 32) :
    parseStringBody (c :: rest) = consUnit c (parseStringBody rest) := by
  rw [parseStringBody.eq_def]
  simp only [h34, h92, h32, if_false]

theorem parseStringBody_short (e c : Nat) (rest : JsString)
    (h : (e = 34 ∧ c = 34) ∨ (e = 92 ∧ c = 92) ∨ (e = 98 ∧ c = 8) ∨ (e = 102 ∧ c = 12) ∨
      (e = 110 ∧ c = 10) ∨ (e = 114 ∧ c = 13) ∨ (e = 116 ∧ c = 9)) :
    parseStringBody (92 :: e :: rest) = consUnit c (parseStringBody rest) := by
  rw [parseStringBody.eq_def]
  rcases h with ⟨rfl, rfl⟩ | ⟨rfl, rfl⟩ | ⟨rfl, rfl⟩ | ⟨rfl, rfl⟩ | ⟨rfl, rfl⟩ | ⟨rfl, rfl⟩ |
    ⟨rfl, rfl⟩ <;> simp

theorem parseStringBody_quoteUnit (c : Nat) (rest : JsString) :
    parseStringBody (quoteUnit c ++ rest) = consUnit c (parseStringBody rest) := by
  unfold quoteUnit
  by_cases h8 : c = 8
  · rw [if_pos h8]; exact parseStringBody_short 98 c rest (by simp [h8])
  rw [if_neg h8]
  by_cases h9 : c = 9
  · rw [if_pos h9]; exact parseStringBody_short 116 c rest (by simp [h9])
  rw [if_neg h9]
  by_cases h10 : c = 10
  · rw [if_pos h10]; exact parseStringBody_short 110 c rest (by simp [h10])
  rw [if_neg h10]
  by_cases h12 : c = 12
  · rw [if_pos h12]; exact parseStringBody_short 102 c rest (by simp [h12])
  rw [if_neg h12]
  by_cases h13 : c = 13
  · rw [if_pos h13]; exact parseStringBody_short 114 c rest (by simp [h13])
  rw [if_neg h13]
  by_cases h34 : c = 34
  · rw [if_pos h34]; exact parseStringBody_short 34 c rest (by simp [h34])
  rw [if_neg h34]
  by_cases h92 : c = 92
  · rw [if_pos h92]; exact parseStringBody_short 92 c rest (by simp [h92])
  rw [if_neg h92]
  by_cases hesc : (c < 32 || isHighSurrogate c || isLowSurrogate c) = true
  · rw [if_pos hesc]
    apply parseStringBody_unicodeEscape
    simp only [isHighSurrogate, isLowSurrogate, Bool.or_eq_true, Bool.and_eq_true,
      decide_eq_true_eq] at hesc
    omega
  · rw [if_neg hesc]
    simp only [isHighSurrogate, isLowSurrogate, Bool.or_eq_true, Bool.and_eq_true,
      decide_eq_true_eq, not_or] at hesc
    exact parseStringBody_raw c rest h34 h92 hesc.1.1

theorem parseStringBody_quoteBody (s rest : JsString) :
    parseStringBody (quoteBody s ++ 34 :: rest) = some (s, rest) := by
  induction s using quoteBody.induct with
  | case1 =>
    rw [quoteBody, List.nil_append, parseStringBody.eq_def]
    simp
  | case2 c =>
    rw [quoteBody, parseStringBody_quoteUnit, parseStringBody.eq_def]
    simp [consUnit]
  | case3 c d tl hpair ih =>
    rw [quoteBody, if_pos hpair]
    simp only [isHighSurrogate, isLowSurrogate, Bool.and_eq_true, decide_eq_true_eq] at hpair
    simp only [List.cons_append]
    rw [parseStringBody_raw c _ (by omega) (by omega) (by omega),
      parseStringBody_raw d _ (by omega) (by omega) (by omega), ih]
    rfl
  | case4 c d tl hpair ih =>
    rw [quoteBody, if_neg hpair, List.append_assoc, parseStringBody_quoteUnit, ih]
    rfl

theorem digitsValue_append_singleton (ds : List Nat) (d : Nat) :
    digitsValue (ds ++ [d]) = 10 * digitsValue ds + (d - 48) := by
  simp [digitsValue, List.foldl_append]

theorem digitsValue_reverse_digits (L : List Nat) :
    digitsValue (L.reverse.map (· + 48)) = Nat.ofDigits 10 L := by
  induction L with
  | nil => rfl
  | cons a L ih =>
    rw [List.reverse_cons, List.map_append, List.map_singleton, digitsValue_append_singleton,
      ih, Nat.ofDigits_cons]
    simp only [Nat.add_sub_cancel, Nat.cast_id]
    omega

theorem digitsValue_natToString (n : Nat) : digitsValue (natToString n) = n := by
  unfold natToString
  by_cases h : n = 0
  · rw [if_pos h, h]; rfl
  · rw [if_neg h, digitsValue_reverse_digits, Nat.ofDigits_digits]

theorem isDigit_of_mem_natToString (n c : Nat) (h : c ∈ natToString n) : isDigit c = true := by
  unfold natToString at h
  by_cases h0 : n = 0
  · rw [if_pos h0] at h
    simp only [List.mem_singleton] at h
    rw [h]; rfl
  · rw [if_neg h0] at h
    obtain ⟨d, hd, rfl⟩ := List.mem_map.mp h
    have := Nat.digits_lt_base (by decide : 1 < 10) (List.mem_reverse.mp hd)
    simp only [isDigit, Bool.and_eq_true, decide_eq_true_eq]
    omega

theorem natToString_cases (n : Nat) :
    ∃ d ds, natToString n = d :: ds ∧ ((n = 0 ∧ d = 48 ∧ ds = []) ∨ (49 ≤ d ∧ d ≤ 57)) := by
  by_cases h0 : n = 0
  · exact ⟨48, [], by rw [natToString, if_pos h0], Or.inl ⟨h0, rfl, rfl⟩⟩
  · have hne : Nat.digits 10 n ≠ [] := Nat.digits_ne_nil_iff_ne_zero.mpr h0
    have hlast := Nat.getLast_digit_ne_zero 10 h0
    have hlt := Nat.digits_lt_base (by decide : 1 < 10) (List.getLast_mem hne)
    have hrev : (Nat.digits 10 n).reverse =
        (Nat.digits 10 n).getLast hne :: (Nat.digits 10 n).dropLast.reverse := by
      conv_lhs => rw [← List.dropLast_append_getLast hne]
      rw [List.reverse_append]
      rfl
    refine ⟨(Nat.digits 10 n).getLast hne + 48,
      (Nat.digits 10 n).dropLast.reverse.map (· + 48), ?_, Or.inr ⟨by omega, by omega⟩⟩
    rw [natToString, if_neg h0, hrev]
    rfl

theorem takeWhile_isDigit_append (ds rest : JsString) (c : Nat)
    (hds : ∀ x ∈ ds, isDigit x = true) (hc : isDigit c = false) :
    (ds ++ c :: rest).takeWhile isDigit = ds ∧ (ds ++ c :: rest).dropWhile isDigit = c :: rest := by
  constructor
  · rw [List.takeWhile_append_of_pos hds, List.takeWhile_cons, hc]
    simp
  · rw [List.dropWhile_append_of_pos hds, List.dropWhile_cons, hc]
    simp

theorem parseInteger_natToString (n : Nat) (rest : JsString) :
    parseInteger (natToString n ++ 44 :: rest) = some (n, 44 :: rest) := by
  obtain ⟨d, ds, hs, hcase⟩ := natToString_cases n
  have hall := isDigit_of_mem_natToString n
  have hval := digitsValue_natToString n
  rw [hs] at hall hval ⊢
  rcases hcase with ⟨h0, hd, hds⟩ | hd
  · subst h0 hd hds
    rfl
  · have htd := takeWhile_isDigit_append ds rest 44
      (fun x hx => hall x (List.mem_cons_of_mem _ hx)) (by decide)
    simp only [parseInteger, List.cons_append]
    rw [if_neg (by omega), if_pos hd, htd.1, htd.2, hval]

theorem parseUnsigned_natToString (n : Nat) (rest : JsString) :
    parseUnsigned (natToString n ++ 44 :: rest) = some ((n : ℚ), 44 :: rest) := by
  unfold parseUnsigned
  rw [parseInteger_natToString]
  simp [parseFraction, parseExponent]

theorem parseNumber_intToString (i : Int) (rest : JsString) :
    parseNumber (intToString i ++ 44 :: rest) = some ((i : ℚ), 44 :: rest) := by
  unfold intToString
  by_cases hneg : i < 0
  · rw [if_pos hneg]
    simp only [parseNumber, List.cons_append]
    rw [parseUnsigned_natToString]
    simp only [Option.some.injEq, Prod.mk.injEq, and_true]
    have hi : i = -((i.natAbs : Nat) : Int) := by omega
    have hq := congrArg (fun z : Int => (z : ℚ)) hi
    simp only [Int.cast_neg, Int.cast_natCast] at hq
    exact hq.symm
  · rw [if_neg hneg]
    obtain ⟨d, ds, hs, hcase⟩ := natToString_cases i.natAbs
    have hd : d ≠ 45 := by
      rcases hcase with ⟨_, hd, _⟩ | hd <;> omega
    have hun := parseUnsigned_natToString i.natAbs rest
    rw [hs] at hun ⊢
    have hpn : parseNumber ((d :: ds) ++ 44 :: rest) = parseUnsigned ((d :: ds) ++ 44 :: rest) := by
      simp only [List.cons_append]
      unfold parseNumber
      split
      · rename_i heq
        simp only [List.cons.injEq] at heq
        exact absurd heq.1 hd
      · rfl
    rw [hpn, hun]
    simp only [Option.some.injEq, Prod.mk.injEq, and_true]
    have hi : i = ((i.natAbs : Nat) : Int) := by omega
    have hq := congrArg (fun z : Int => (z : ℚ)) hi
    simp only [Int.cast_natCast] at hq
    exact hq.symm

theorem intToString_head (i : Int) :
    ∃ c r, intToString i = c :: r ∧ (c = 45 ∨ isDigit c = true) := by
  unfold intToString
  by_cases hneg : i < 0
  · rw [if_pos hneg]
    exact ⟨45, _, rfl, Or.inl rfl⟩
  · rw [if_neg hneg]
    obtain ⟨d, ds, hs, -⟩ := natToString_cases i.natAbs
    refine ⟨d, ds, hs, Or.inr ?_⟩
    exact isDigit_of_mem_natToString i.natAbs d (by rw [hs]; exact List.mem_cons_self _ _)

theorem numberToString_intCast (fmt : ℚ → JsString) (i : Int) :
    numberToString fmt (i : ℚ) = intToString i := by
  simp [numberToString]

theorem skipWs_cons (c : Nat) (r : JsString) (h : isJsonWhiteSpace c = false) :
    skipWs (c :: r) = c :: r := by
  simp [skipWs, List.dropWhile_cons, h]

theorem parseValue_str (m : Nat) (s rest : JsString) :
    parseValue (m + 1) (quoteJSONString s ++ rest) = some (.str s, rest) := by
  have hs : quoteJSONString s ++ rest = 34 :: (quoteBody s ++ 34 :: rest) := by
    simp [quoteJSONString]
  rw [hs, parseValue, skipWs_cons 34 _ (by decide)]
  simp only [if_true]
  rw [parseStringBody_quoteBody]

theorem parseValue_number (m c : Nat) (r r' : JsString) (q : ℚ)
    (hc : c = 45 ∨ isDigit c = true) (hq : parseNumber (c :: r) = some (q, r')) :
    parseValue (m + 1) (c :: r) = some (.num q, r') := by
  have hws : isJsonWhiteSpace c = false := by
    rcases hc with rfl | hc
    · decide
    · simp only [isDigit, Bool.and_eq_true, decide_eq_true_eq] at hc
      simp only [isJsonWhiteSpace, Bool.or_eq_false_iff, beq_eq_false_iff_ne, ne_eq]
      omega
  have h34 : c ≠ 34 := by
    rcases hc with rfl | hc
    · decide
    · simp only [isDigit, Bool.and_eq_true, decide_eq_true_eq] at hc; omega
  have h91 : c ≠ 91 := by
    rcases hc with rfl | hc
    · decide
    · simp only [isDigit, Bool.and_eq_true, decide_eq_true_eq] at hc; omega
  have h123 : c ≠ 123 := by
    rcases hc with rfl | hc
    · decide
    · simp only [isDigit, Bool.and_eq_true, decide_eq_true_eq] at hc; omega
  rw [parseValue, skipWs_cons c r hws]
  simp only [h34, h91, h123, if_false, hc, if_true, hq]

theorem parseValue_int (m : Nat) (i : Int) (rest : JsString) :
    parseValue (m + 1) (intToString i ++ 44 :: rest) = some (.num (i : ℚ), 44 :: rest) := by
  obtain ⟨c, r, hs, hc⟩ := intToString_head i
  have hq := parseNumber_intToString i rest
  rw [hs] at hq ⊢
  exact parseValue_number m c _ _ _ hc hq

theorem parseValue_bool (fmt : ℚ → JsString) (m : Nat) (b : Bool) (rest : JsString) :
    parseValue (m + 1) (jsonStringify fmt (.bool b) ++ rest) = some (.bool b, rest) := by
  cases b
  · simp [jsonStringify, parseValue, skipWs, List.dropWhile_cons, isJsonWhiteSpace, isDigit]
  · simp [jsonStringify, parseValue, skipWs, List.dropWhile_cons, isJsonWhiteSpace, isDigit]

theorem parseProps_member_comma (m : Nat) (k vs rest : JsString) (v : Json)
    (acc : List (JsString × Json))
    (hv : parseValue m (vs ++ 44 :: rest) = some (v, 44 :: rest)) :
    parseProps (m + 1) (quoteJSONString k ++ 58 :: (vs ++ 44 :: rest)) acc =
      parseProps m rest (objSet acc k v) := by
  have hs : quoteJSONString k ++ 58 :: (vs ++ 44 :: rest) =
      34 :: (quoteBody k ++ 34 :: 58 :: (vs ++ 44 :: rest)) := by
    simp [quoteJSONString]
  rw [hs, parseProps, skipWs_cons 34 _ (by decide)]
  simp only [parseStringBody_quoteBody]
  rw [skipWs_cons 58 _ (by decide)]
  simp only [hv]
  rw [skipWs_cons 44 _ (by decide)]

theorem parseProps_member_last (m : Nat) (k vs rest : JsString) (v : Json)
    (acc : List (JsString × Json))
    (hv : parseValue m (vs ++ 125 :: rest) = some (v, 125 :: rest)) :
    parseProps (m + 1) (quoteJSONString k ++ 58 :: (vs ++ 125 :: rest)) acc =
      some (.obj (objSet acc k v), rest) := by
  have hs : quoteJSONString k ++ 58 :: (vs ++ 125 :: rest) =
      34 :: (quoteBody k ++ 34 :: 58 :: (vs ++ 125 :: rest)) := by
    simp [quoteJSONString]
  rw [hs, parseProps, skipWs_cons 34 _ (by decide)]
  simp only [parseStringBody_quoteBody]
  rw [skipWs_cons 58 _ (by decide)]
  simp only [hv]
  rw [skipWs_cons 125 _ (by decide)]

theorem objSet_todo (a b c : Json) :
    objSet (objSet (objSet [] (utf16 "id") a) (utf16 "text") b) (utf16 "completed") c =
      [(utf16 "id", a), (utf16 "text", b), (utf16 "completed", c)] := by
  have h1 : arrayIndex? (utf16 "id") = none := by decide
  have h2 : arrayIndex? (utf16 "text") = none := by decide
  have h3 : arrayIndex? (utf16 "completed") = none := by decide
  have e12 : (utf16 "id" == utf16 "text") = false := by decide
  have e13 : (utf16 "id" == utf16 "completed") = false := by decide
  have e23 : (utf16 "text" == utf16 "completed") = false := by decide
  simp [objSet, h1, h2, h3, e12, e13, e23]

theorem jsonStringify_num (fmt : ℚ → JsString) (q : ℚ) :
    jsonStringify fmt (.num q) = numberToString fmt q := by
  rw [jsonStringify]

theorem jsonStringify_str (fmt : ℚ → JsString) (s : JsString) :
    jsonStringify fmt (.str s) = quoteJSONString s := by
  rw [jsonStringify]

theorem jsonStringify_arr (fmt : ℚ → JsString) (elems : List Json) :
    jsonStringify fmt (.arr elems) = 91 :: (stringifyElems fmt elems ++ [93]) := by
  rw [jsonStringify]

theorem jsonStringify_obj (fmt : ℚ → JsString) (props : List (JsString × Json)) :
    jsonStringify fmt (.obj props) = 123 :: (stringifyProps fmt props ++ [125]) := by
  rw [jsonStringify]

theorem stringifyProps_single (fmt : ℚ → JsString) (k : JsString) (x : Json) :
    stringifyProps fmt [(k, x)] = quoteJSONString k ++ 58 :: jsonStringify fmt x := by
  rw [stringifyProps]

theorem stringifyProps_cons (fmt : ℚ → JsString) (k : JsString) (x : Json)
    (p : JsString × Json) (ps : List (JsString × Json)) :
    stringifyProps fmt ((k, x) :: p :: ps) =
      quoteJSONString k ++ 58 :: (jsonStringify fmt x ++ 44 :: stringifyProps fmt (p :: ps)) := by
  rw [stringifyProps]

theorem stringifyElems_single (fmt : ℚ → JsString) (x : Json) :
    stringifyElems fmt [x] = jsonStringify fmt x := by
  rw [stringifyElems]

theorem stringifyElems_cons (fmt : ℚ → JsString) (x y : Json) (ys : List Json) :
    stringifyElems fmt (x :: y :: ys) =
      jsonStringify fmt x ++ 44 :: stringifyElems fmt (y :: ys) := by
  rw [stringifyElems]

theorem jsonStringify_todoJson (fmt : ℚ → JsString) (t : Todo) (rest : JsString) :
    jsonStringify fmt (todoJson t) ++ rest =
      123 :: (quoteJSONString (utf16 "id") ++ 58 :: (intToString t.id ++ 44 ::
        (quoteJSONString (utf16 "text") ++ 58 :: (quoteJSONString t.text ++ 44 ::
          (quoteJSONString (utf16 "completed") ++ 58 ::
            (jsonStringify fmt (.bool t.completed) ++ 125 :: rest)))))) := by
  rw [todoJson, jsonStringify_obj, stringifyProps_cons, stringifyProps_cons,
    stringifyProps_single, jsonStringify_num, jsonStringify_str, numberToString_intCast]
  simp only [List.cons_append, List.append_assoc, List.nil_append]

theorem parseValue_todoJson (fmt : ℚ → JsString) (m : Nat) (t : Todo) (rest : JsString) :
    parseValue (m + 5) (jsonStringify fmt (todoJson t) ++ rest) = some (todoJson t, rest) := by
  rw [jsonStringify_todoJson, parseValue, skipWs_cons 123 _ (by decide)]
  simp only [show ¬ ((123 : Nat) = 34) by decide, show ¬ ((123 : Nat) = 91) by decide,
    if_false, if_true]
  have hq : skipWs (quoteJSONString (utf16 "id") ++ 58 :: (intToString t.id ++ 44 ::
        (quoteJSONString (utf16 "text") ++ 58 :: (quoteJSONString t.text ++ 44 ::
          (quoteJSONString (utf16 "completed") ++ 58 ::
            (jsonStringify fmt (.bool t.completed) ++ 125 :: rest)))))) =
      34 :: (quoteBody (utf16 "id") ++ 34 :: 58 :: (intToString t.id ++ 44 ::
        (quoteJSONString (utf16 "text") ++ 58 :: (quoteJSONString t.text ++ 44 ::
          (quoteJSONString (utf16 "completed") ++ 58 ::
            (jsonStringify fmt (.bool t.completed) ++ 125 :: rest)))))) := by
    rw [← skipWs_cons 34 _ (by decide)]
    simp [quoteJSONString]
  rw [hq]
  simp only
  rw [parseProps_member_comma (m + 3) _ _ _ _ _ (parseValue_int (m + 2) t.id _),
    parseProps_member_comma (m + 2) _ _ _ _ _ (parseValue_str (m + 1) t.text _),
    parseProps_member_last (m + 1) _ _ _ _ _ (parseValue_bool fmt m t.completed _),
    objSet_todo]
  rfl

theorem jsonStringify_todoJson_head (fmt : ℚ → JsString) (t : Todo) :
    ∃ r, jsonStringify fmt (todoJson t) = 123 :: r ∧ 1 ≤ r.length := by
  refine ⟨_, by rw [todoJson, jsonStringify_obj], ?_⟩
  simp

theorem stringifyElems_todos_head (fmt : ℚ → JsString) (t : Todo) (L : List Todo) :
    ∃ r, stringifyElems fmt ((t :: L).map todoJson) = 123 :: r := by
  obtain ⟨r, hr, -⟩ := jsonStringify_todoJson_head fmt t
  cases L with
  | nil => exact ⟨r, by rw [List.map_singleton, stringifyElems_single, hr]⟩
  | cons u L =>
    exact ⟨r ++ 44 :: stringifyElems fmt ((u :: L).map todoJson), by
      rw [List.map_cons, List.map_cons, stringifyElems_cons, hr, ← List.map_cons]
      rfl⟩

theorem length_stringifyElems_todos (fmt : ℚ → JsString) (L : List Todo) :
    2 * L.length ≤ (stringifyElems fmt (L.map todoJson)).length := by
  induction L with
  | nil => simp
  | cons t L ih =>
    obtain ⟨r, hr, hlen⟩ := jsonStringify_todoJson_head fmt t
    cases L with
    | nil =>
      rw [List.map_singleton, stringifyElems_single, hr]
      simp only [List.length_cons, List.length_nil]
      omega
    | cons u L =>
      rw [List.map_cons, List.map_cons, stringifyElems_cons, hr, ← List.map_cons]
      simp only [List.length_cons, List.length_append] at ih ⊢
      omega

theorem parseElems_todos (fmt : ℚ → JsString) (L : List Todo) :
    ∀ (t : Todo) (m : Nat) (acc : List Json) (rest : JsString),
      parseElems (m + L.length + 6) (stringifyElems fmt ((t :: L).map todoJson) ++ 93 :: rest)
        acc = some (.arr (acc ++ (t :: L).map todoJson), rest) := by
  induction L with
  | nil =>
    intro t m acc rest
    rw [List.map_singleton, stringifyElems_single, List.length_nil, Nat.add_zero, parseElems,
      parseValue_todoJson]
    simp only
    rw [skipWs_cons 93 _ (by decide)]
  | cons u L ih =>
    intro t m acc rest
    rw [List.map_cons, List.map_cons, stringifyElems_cons, ← List.map_cons, List.append_assoc,
      List.cons_append, List.length_cons]
    rw [show m + (L.length + 1) + 6 = (m + L.length + 6) + 1 by omega, parseElems,
      show m + L.length + 6 = (m + L.length + 1) + 5 by omega, parseValue_todoJson]
    simp only
    rw [skipWs_cons 44 _ (by decide)]
    simp only
    rw [show (m + L.length + 1) + 5 = m + L.length + 6 by omega, ih u m (acc ++ [todoJson t]) rest]
    simp

/-- `JSON.parse` reads back the todo list that `JSON.stringify` wrote. -/
theorem jsonParse_stringify_toJson (fmt : ℚ → JsString) (L : List Todo) :
    jsonParse (jsonStringify fmt (toJson L)) = some (toJson L) := by
  cases L with
  | nil =>
    rw [toJson, List.map_nil, jsonStringify_arr]
    rfl
  | cons t L =>
    have hlen := length_stringifyElems_todos fmt (t :: L)
    obtain ⟨r, hr⟩ := stringifyElems_todos_head fmt t L
    unfold jsonParse
    rw [toJson, jsonStringify_arr]
    generalize hF : 2 * (91 :: (stringifyElems fmt ((t :: L).map todoJson) ++ [93])).length + 2 = F
    have hFle : L.length + 7 ≤ F := by
      rw [← hF]
      simp only [List.length_cons, List.length_append, List.length_nil] at hlen ⊢
      omega
    obtain ⟨m, rfl⟩ : ∃ m, F = (m + L.length + 6) + 1 := ⟨F - (L.length + 7), by omega⟩
    rw [parseValue, skipWs_cons 91 _ (by decide)]
    simp only [show ¬ ((91 : Nat) = 34) by decide, if_false, if_true]
    have hskip : skipWs (stringifyElems fmt ((t :: L).map todoJson) ++ [93]) =
        123 :: (r ++ [93]) := by
      rw [hr, List.cons_append, skipWs_cons 123 _ (by decide)]
    rw [hskip]
    simp only
    rw [parseElems_todos fmt L t m [] []]
    simp [skipWs]

theorem todoJson_injective : Function.Injective todoJson := by
  intro a b h
  obtain ⟨aid, atext, adone⟩ := a
  obtain ⟨bid, btext, bdone⟩ := b
  simp only [todoJson, Json.obj.injEq, List.cons.injEq, Prod.mk.injEq, Json.num.injEq,
    Json.str.injEq, Json.bool.injEq, Int.cast_inj, true_and, and_true] at h
  obtain ⟨h1, h2, h3⟩ := h
  subst h1 h2 h3
  rfl

theorem toJson_injective : Function.Injective toJson := by
  intro a b h
  simp only [toJson, Json.arr.injEq] at h
  exact List.map_injective_iff.mpr todoJson_injective h

/-! ## Theorems: the depth bound of `jsonParse` is never the reason for a rejection -/

theorem consUnit_eq_some (c : Nat) (o : Option (JsString × JsString)) (k r1 : JsString)
    (h : consUnit c o = some (k, r1)) : ∃ k', o = some (k', r1) := by
  cases o with
  | none => simp [consUnit] at h
  | some p =>
    obtain ⟨a, b⟩ := p
    simp only [consUnit, Option.some.injEq, Prod.mk.injEq] at h
    exact ⟨a, by rw [h.2]⟩

theorem parseStringBody_length (r : JsString) :
    ∀ k r1, parseStringBody r = some (k, r1) → r1.length < r.length := by
  induction r using parseStringBody.induct with
  | case1 => intro k r1 h; simp [parseStringBody] at h
  | case2 rest =>
    intro k r1 h
    rw [parseStringBody.eq_def] at h
    simp at h
    rw [← h.2]; simp
  | _ =>
    intro k r1 h
    rw [parseStringBody.eq_def] at h
    simp [*] at h
    try (
      rename_i ih
      obtain ⟨k', hk⟩ := consUnit_eq_some _ _ _ _ h
      have hlt := ih k' r1 hk
      simp only [List.length_cons]
      omega)


theorem length_skipWs_le (s : JsString) : (skipWs s).length ≤ s.length :=
  (List.dropWhile_sublist isJsonWhiteSpace).length_le

theorem length_dropWhile_isDigit_le (s : JsString) :
    (s.dropWhile isDigit).length ≤ s.length :=
  (List.dropWhile_sublist isDigit).length_le

theorem parseInteger_length (s r : JsString) (n : Nat) (h : parseInteger s = some (n, r)) :
    r.length < s.length := by
  unfold parseInteger at h
  split at h
  · simp at h
  · rename_i d t
    split at h
    · simp only [Option.some.injEq, Prod.mk.injEq] at h
      rw [← h.2]; simp
    · split at h
      · simp only [Option.some.injEq, Prod.mk.injEq] at h
        have := length_dropWhile_isDigit_le t
        rw [← h.2]; simp only [List.length_cons]; omega
      · simp at h

theorem parseFraction_length (s r : JsString) (f : ℚ) (h : parseFraction s = some (f, r)) :
    r.length ≤ s.length := by
  unfold parseFraction at h
  split at h
  · rename_i t
    split at h
    · simp at h
    · simp only [Option.some.injEq, Prod.mk.injEq] at h
      have := length_dropWhile_isDigit_le t
      rw [← h.2]; simp only [List.length_cons]; omega
  · simp only [Option.some.injEq, Prod.mk.injEq] at h
    rw [← h.2]

theorem parseExponentDigits_length (neg : Bool) (s r : JsString) (e : ℚ)
    (h : parseExponentDigits neg s = some (e, r)) : r.length ≤ s.length := by
  unfold parseExponentDigits at h
  split at h
  · simp at h
  · simp only [Option.some.injEq, Prod.mk.injEq] at h
    rw [← h.2]; exact length_dropWhile_isDigit_le s

theorem parseExponent_length (s r : JsString) (e : ℚ) (h : parseExponent s = some (e, r)) :
    r.length ≤ s.length := by
  unfold parseExponent at h
  split at h
  · simp only [Option.some.injEq, Prod.mk.injEq] at h
    rw [← h.2]
  · rename_i c t
    split at h
    · split at h
      · have := parseExponentDigits_length _ _ _ _ h
        simp only [List.length_cons]; omega
      · have := parseExponentDigits_length _ _ _ _ h
        simp only [List.length_cons]; omega
      · have := parseExponentDigits_length _ _ _ _ h
        simp only [List.length_cons]; omega
    · simp only [Option.some.injEq, Prod.mk.injEq] at h
      rw [← h.2]

theorem parseUnsigned_length (s r : JsString) (q : ℚ) (h : parseUnsigned s = some (q, r)) :
    r.length < s.length := by
  unfold parseUnsigned at h
  split at h
  · simp at h
  · rename_i n s2 h1
    split at h
    · simp at h
    · rename_i f s3 h2
      split at h
      · simp at h
      · rename_i e s4 h3
        simp only [Option.some.injEq, Prod.mk.injEq] at h
        have := parseInteger_length _ _ _ h1
        have := parseFraction_length _ _ _ h2
        have := parseExponent_length _ _ _ h3
        rw [← h.2]; omega

theorem parseNumber_length (s r : JsString) (q : ℚ) (h : parseNumber s = some (q, r)) :
    r.length < s.length := by
  unfold parseNumber at h
  split at h
  · rename_i t
    split at h
    · rename_i q' rest hu
      simp only [Option.some.injEq, Prod.mk.injEq] at h
      have := parseUnsigned_length _ _ _ hu
      rw [← h.2]; simp only [List.length_cons]; omega
    · simp at h
  · exact parseUnsigned_length _ _ _ h


theorem parse_length (n : Nat) :
    (∀ s v r, parseValue n s = some (v, r) → r.length < s.length) ∧
    (∀ s acc v r, parseElems n s acc = some (v, r) → r.length < s.length) ∧
    (∀ s acc v r, parseProps n s acc = some (v, r) → r.length < s.length) := by
  induction n with
  | zero =>
    refine ⟨?_, ?_, ?_⟩
    · intro s v r h; simp [parseValue] at h
    · intro s acc v r h; simp [parseElems] at h
    · intro s acc v r h; simp [parseProps] at h
  | succ n ih =>
    obtain ⟨ihV, ihE, ihP⟩ := ih
    refine ⟨?_, ?_, ?_⟩
    · intro s v r h
      rw [parseValue] at h
      have hws := length_skipWs_le s
      split at h
      · simp at h
      · rename_i c r0 hs
        rw [hs] at hws
        simp only [List.length_cons] at hws
        split at h
        · split at h
          · rename_i str r' hstr
            simp only [Option.some.injEq, Prod.mk.injEq] at h
            have := parseStringBody_length _ _ _ hstr
            rw [← h.2]; omega
          · simp at h
        · split at h
          · split at h
            · rename_i r' hr
              simp only [Option.some.injEq, Prod.mk.injEq] at h
              have := length_skipWs_le r0
              rw [hr] at this
              simp only [List.length_cons] at this
              rw [← h.2]; omega
            · have := ihE _ _ _ _ h
              omega
          · split at h
            · split at h
              · rename_i r' hr
                simp only [Option.some.injEq, Prod.mk.injEq] at h
                have := length_skipWs_le r0
                rw [hr] at this
                simp only [List.length_cons] at this
                rw [← h.2]; omega
              · have := ihP _ _ _ _ h
                omega
            · split at h
              · split at h
                · rename_i q r' hq
                  simp only [Option.some.injEq, Prod.mk.injEq] at h
                  have := parseNumber_length _ _ _ hq
                  simp only [List.length_cons] at this
                  rw [← h.2]; omega
                · simp at h
              · split at h
                · rename_i heq
                  simp only [Option.some.injEq, Prod.mk.injEq] at h
                  have := congrArg List.length heq
                  simp only [List.length_cons] at this
                  rw [← h.2]; omega
                · rename_i heq
                  simp only [Option.some.injEq, Prod.mk.injEq] at h
                  have := congrArg List.length heq
                  simp only [List.length_cons] at this
                  rw [← h.2]; omega
                · rename_i heq
                  simp only [Option.some.injEq, Prod.mk.injEq] at h
                  have := congrArg List.length heq
                  simp only [List.length_cons] at this
                  rw [← h.2]; omega
                · simp at h
    · intro s acc v r h
      rw [parseElems] at h
      split at h
      · simp at h
      · rename_i v0 r0 hv
        have h0 := ihV _ _ _ hv
        have hws := length_skipWs_le r0
        split at h
        · rename_i r' hr
          rw [hr] at hws
          simp only [List.length_cons] at hws
          have := ihE _ _ _ _ h
          omega
        · rename_i r' hr
          rw [hr] at hws
          simp only [List.length_cons] at hws
          simp only [Option.some.injEq, Prod.mk.injEq] at h
          rw [← h.2]; omega
        · simp at h
    · intro s acc v r h
      rw [parseProps] at h
      have hws := length_skipWs_le s
      split at h
      · rename_i r0 hs
        rw [hs] at hws
        simp only [List.length_cons] at hws
        split at h
        · simp at h
        · rename_i k r1 hk
          have h1 := parseStringBody_length _ _ _ hk
          have hws1 := length_skipWs_le r1
          split at h
          · rename_i r2 hr2
            rw [hr2] at hws1
            simp only [List.length_cons] at hws1
            split at h
            · simp at h
            · rename_i v0 r3 hv
              have h3 := ihV _ _ _ hv
              have hws3 := length_skipWs_le r3
              split at h
              · rename_i r4 hr4
                rw [hr4] at hws3
                simp only [List.length_cons] at hws3
                have := ihP _ _ _ _ h
                omega
              · rename_i r4 hr4
                rw [hr4] at hws3
                simp only [List.length_cons] at hws3
                simp only [Option.some.injEq, Prod.mk.injEq] at h
                rw [← h.2]; omega
              · simp at h
          · simp at h
      · simp at h


theorem parse_fuel_succ (n : Nat) :
    (∀ s, 2 * s.length + 2 ≤ n → parseValue (n + 1) s = parseValue n s) ∧
    (∀ s acc, 2 * s.length + 3 ≤ n → parseElems (n + 1) s acc = parseElems n s acc) ∧
    (∀ s acc, 2 * s.length + 3 ≤ n → parseProps (n + 1) s acc = parseProps n s acc) := by
  induction n with
  | zero =>
    refine ⟨?_, ?_, ?_⟩
    · intro s h; omega
    · intro s acc h; omega
    · intro s acc h; omega
  | succ n ih =>
    obtain ⟨ihV, ihE, ihP⟩ := ih
    refine ⟨?_, ?_, ?_⟩
    · intro s hb
      conv_lhs => rw [parseValue]
      conv_rhs => rw [parseValue]
      have hws := length_skipWs_le s
      cases hs : skipWs s with
      | nil => rfl
      | cons c r0 =>
        rw [hs] at hws
        simp only [List.length_cons] at hws
        simp only
        have hE : parseElems (n + 1) r0 [] = parseElems n r0 [] := ihE r0 [] (by omega)
        have hP : parseProps (n + 1) r0 [] = parseProps n r0 [] := ihP r0 [] (by omega)
        rw [hE, hP]
    · intro s acc hb
      conv_lhs => rw [parseElems]
      conv_rhs => rw [parseElems]
      rw [ihV s (by omega)]
      cases hv : parseValue n s with
      | none => rfl
      | some p =>
        obtain ⟨v, r0⟩ := p
        have h0 := (parse_length n).1 _ _ _ hv
        have hws := length_skipWs_le r0
        simp only
        split
        · rename_i r' hr
          rw [hr] at hws
          simp only [List.length_cons] at hws
          exact ihE r' _ (by omega)
        · rfl
        · rfl
    · intro s acc hb
      conv_lhs => rw [parseProps]
      conv_rhs => rw [parseProps]
      have hws := length_skipWs_le s
      split
      · rename_i r0 hs
        rw [hs] at hws
        simp only [List.length_cons] at hws
        split
        · rfl
        · rename_i k r1 hk
          have h1 := parseStringBody_length _ _ _ hk
          have hws1 := length_skipWs_le r1
          split
          · rename_i r2 hr2
            rw [hr2] at hws1
            simp only [List.length_cons] at hws1
            rw [ihV r2 (by omega)]
            cases hv : parseValue n r2 with
            | none => rfl
            | some p =>
              obtain ⟨v, r3⟩ := p
              have h3 := (parse_length n).1 _ _ _ hv
              have hws3 := length_skipWs_le r3
              simp only
              split
              · rename_i r4 hr4
                rw [hr4] at hws3
                simp only [List.length_cons] at hws3
                exact ihP r4 _ (by omega)
              · rfl
              · rfl
          · rfl
      · rfl

theorem parseValue_fuel_add (s : JsString) (n k : Nat) (h : 2 * s.length + 2 ≤ n) :
    parseValue (n + k) s = parseValue n s := by
  induction k with
  | zero => rfl
  | succ k ih =>
    rw [← Nat.add_assoc, (parse_fuel_succ (n + k)).1 s (by omega), ih]


theorem parse_fuel_mono (n : Nat) :
    (∀ s x, parseValue n s = some x → parseValue (n + 1) s = some x) ∧
    (∀ s acc x, parseElems n s acc = some x → parseElems (n + 1) s acc = some x) ∧
    (∀ s acc x, parseProps n s acc = some x → parseProps (n + 1) s acc = some x) := by
  induction n with
  | zero =>
    refine ⟨?_, ?_, ?_⟩
    · intro s x h; simp [parseValue] at h
    · intro s acc x h; simp [parseElems] at h
    · intro s acc x h; simp [parseProps] at h
  | succ n ih =>
    obtain ⟨ihV, ihE, ihP⟩ := ih
    refine ⟨?_, ?_, ?_⟩
    · intro s x h
      rw [parseValue] at h ⊢
      cases hs : skipWs s with
      | nil => rw [hs] at h; simp at h
      | cons c r0 =>
        rw [hs] at h
        simp only at h ⊢
        split
        · rename_i hc
          rw [if_pos hc] at h
          exact h
        · rename_i hc
          rw [if_neg hc] at h
          split
          · rename_i hc2
            rw [if_pos hc2] at h
            split
            · rename_i r' hr
              rw [hr] at h
              exact h
            · rename_i hne
              split at h
              · rename_i r' hr
                exact absurd hr (hne r')
              · exact ihE _ _ _ h
          · rename_i hc2
            rw [if_neg hc2] at h
            split
            · rename_i hc3
              rw [if_pos hc3] at h
              split
              · rename_i r' hr
                rw [hr] at h
                exact h
              · rename_i hne
                split at h
                · rename_i r' hr
                  exact absurd hr (hne r')
                · exact ihP _ _ _ h
            · rename_i hc3
              rw [if_neg hc3] at h
              exact h
    · intro s acc x h
      rw [parseElems] at h ⊢
      cases hv : parseValue n s with
      | none => rw [hv] at h; simp at h
      | some p =>
        obtain ⟨v, r0⟩ := p
        rw [hv] at h
        rw [ihV s _ hv]
        simp only at h ⊢
        split
        · rename_i r' hr
          rw [hr] at h
          exact ihE _ _ _ h
        · rename_i r' hr
          rw [hr] at h
          exact h
        · rename_i hne1 hne2
          split at h
          · rename_i r' hr
            exact absurd hr (hne1 r')
          · rename_i r' hr
            exact absurd hr (hne2 r')
          · simp at h
    · intro s acc x h
      rw [parseProps] at h ⊢
      split
      · rename_i r0 hs
        rw [hs] at h
        simp only at h
        cases hk : parseStringBody r0 with
        | none => rw [hk] at h; simp at h
        | some p =>
          obtain ⟨k, r1⟩ := p
          rw [hk] at h
          simp only at h ⊢
          split
          · rename_i r2 hr2
            rw [hr2] at h
            simp only at h
            cases hv : parseValue n r2 with
            | none => rw [hv] at h; simp at h
            | some p =>
              obtain ⟨v, r3⟩ := p
              rw [hv] at h
              rw [ihV r2 _ hv]
              simp only at h ⊢
              split
              · rename_i r4 hr4
                rw [hr4] at h
                exact ihP _ _ _ h
              · rename_i r4 hr4
                rw [hr4] at h
                exact h
              · rename_i hne1 hne2
                split at h
                · rename_i r4 hr4
                  exact absurd hr4 (hne1 r4)
                · rename_i r4 hr4
                  exact absurd hr4 (hne2 r4)
                · simp at h
          · rename_i hne
            split at h
            · rename_i r2 hr2
              exact absurd hr2 (hne r2)
            · simp at h
      · rename_i hne
        split at h
        · rename_i r0 hs
          exact absurd hs (hne r0)
        · simp at h

theorem parseValue_fuel_mono (s : JsString) (x : Json × JsString) (n k : Nat)
    (h : parseValue n s = some x) : parseValue (n + k) s = some x := by
  induction k with
  | zero => exact h
  | succ k ih => exact (parse_fuel_mono (n + k)).1 s x ih

theorem parseValue_fuel_adequate (s : JsString) (x : Json × JsString) (n : Nat)
    (h : parseValue n s = some x) : parseValue (2 * s.length + 2) s = some x := by
  have h1 := parseValue_fuel_mono s x n (2 * s.length + 2) h
  have h2 := parseValue_fuel_add s (2 * s.length + 2) n (Nat.le_refl _)
  rw [Nat.add_comm] at h1
  rw [← h2, h1]

/-- `jsonParse` rejects a text exactly when no depth bound lets the parser
read the whole text as one value. -/
theorem jsonParse_eq_none_iff (s : JsString) :
    jsonParse s = none ↔
      ∀ (n : Nat) (v : Json) (rest : JsString),
        parseValue n s = some (v, rest) → skipWs rest ≠ [] := by
  constructor
  · intro h n v rest hn hrest
    have := parseValue_fuel_adequate s (v, rest) n hn
    simp [jsonParse, this, hrest] at h
  · intro h
    unfold jsonParse
    cases hp : parseValue (2 * s.length + 2) s with
    | none => rfl
    | some p =>
      obtain ⟨v, rest⟩ := p
      simp only
      rw [if_neg (h _ v rest hp)]

/-! ## Theorems: persistence -/

theorem truthyString_jsonStringify_toJson (fmt : ℚ → JsString) (L : List Todo) :
    truthyString (jsonStringify fmt (toJson L)) = true := by
  rw [toJson, jsonStringify_arr]
  rfl

theorem loadTodosTry_of_saved (fmt : ℚ → JsString) (L : List Todo) :
    loadTodosTry (.ok (some (jsonStringify fmt (toJson L)))) = .ok (some (toJson L)) := by
  simp only [loadTodosTry, truthyString_jsonStringify_toJson, if_true,
    jsonParse_stringify_toJson]

theorem loadTodosTry_of_notValid (read : Except JsError (Option JsString))
    (h : ReadNotValid read) :
    loadTodosTry read = .ok none ∨ ∃ e, loadTodosTry read = .error e := by
  match read, h with
  | .error e, _ => exact Or.inr ⟨e, rfl⟩
  | .ok none, _ => exact Or.inl rfl
  | .ok (some s), h =>
    have hp : jsonParse s = none := h
    by_cases ht : truthyString s = true
    · exact Or.inr ⟨.malformedJson, by simp only [loadTodosTry, ht, if_true, hp]⟩
    · exact Or.inl (by simp only [loadTodosTry, ht, Bool.false_eq_true, if_false])

/-- C7: what `saveTodos` writes under `'todos'` for a todo list `L`, read
back by `loadTodos`, makes the in-memory list equal to `L` again, same order
and same `id`, `text` and `completed` in every item. -/
theorem load_save_roundtrip (fmt : ℚ → JsString) (L : List Todo) (store : Storage)
    (console : List LogEntry) (before : AppState) :
    ∃ store' : Storage,
      saveTodos fmt { todos := toJson L, console := console } store none =
        .ok ({ todos := toJson L, console := console }, store') ∧
      store' todosKey = some (jsonStringify fmt (toJson L)) ∧
      jsonParse (jsonStringify fmt (toJson L)) = some (toJson L) ∧
      loadTodos before (getItem store' none todosKey) =
        .ok { todos := toJson L, console := before.console } ∧
      ∀ L' : List Todo, toJson L' = toJson L → L' = L := by
  refine ⟨fun k => if k = todosKey then some (jsonStringify fmt (toJson L)) else store k,
    rfl, by simp, jsonParse_stringify_toJson fmt L, ?_, fun L' h => toJson_injective h⟩
  simp only [getItem, if_true, loadTodos, loadTodosTry_of_saved]

/-- C8: when the read of `'todos'` fails, finds no key, or finds a string
that `JSON.parse` rejects, `loadTodos` completes normally and leaves `todos`
as it was, so the list of a starting app stays empty. -/
theorem loadTodos_recovers (state : AppState) (read : Except JsError (Option JsString))
    (h : ReadNotValid read) :
    ∃ after : AppState, loadTodos state read = .ok after ∧ after.todos = state.todos ∧
      (state.todos = toJson [] → after.todos = toJson []) := by
  rcases loadTodosTry_of_notValid read h with h0 | ⟨e, he⟩
  · exact ⟨state, by simp only [loadTodos, h0], rfl, fun h => h⟩
  · exact ⟨{ state with console := state.console ++ [.loadError e] },
      by simp only [loadTodos, he], rfl, fun h => h⟩

/-- C8 at the three kinds of bad read, for the state of a starting app: a
stored string that is not JSON, an absent key, a storage error. -/
theorem loadTodos_recovers_witness :
    ReadNotValid (.ok (some (utf16 "\x7bbad"))) ∧
    (∃ after : AppState,
      loadTodos { todos := toJson [], console := [] } (.ok (some (utf16 "\x7bbad"))) = .ok after ∧
      after.todos = toJson []) ∧
    (∃ after : AppState,
      loadTodos { todos := toJson [], console := [] } (.ok none) = .ok after ∧
      after.todos = toJson []) ∧
    (∃ after : AppState,
      loadTodos { todos := toJson [], console := [] } (.error (.storage 5)) = .ok after ∧
      after.todos = toJson []) := by
  have hbad : ReadNotValid (.ok (some (utf16 "\x7bbad"))) := by
    show jsonParse (utf16 "\x7bbad") = none
    rfl
  refine ⟨hbad, ?_, ?_, ?_⟩
  · obtain ⟨after, h1, h2, -⟩ := loadTodos_recovers { todos := toJson [], console := [] }
      (.ok (some (utf16 "\x7bbad"))) hbad
    exact ⟨after, h1, h2⟩
  · obtain ⟨after, h1, h2, -⟩ := loadTodos_recovers { todos := toJson [], console := [] }
      (.ok none) trivial
    exact ⟨after, h1, h2⟩
  · obtain ⟨after, h1, h2, -⟩ := loadTodos_recovers { todos := toJson [], console := [] }
      (.error (.storage 5)) trivial
    exact ⟨after, h1, h2⟩

theorem startup_of_saved (fmt : ℚ → JsString) (L : List Todo) (store : Storage)
    (h : store todosKey = some (jsonStringify fmt (toJson L))) :
    (startup fmt store none).map (fun r => (r.writes, r.state.todos, r.store todosKey)) =
      .ok ([jsonStringify fmt (.arr []), jsonStringify fmt (toJson L)], toJson L,
        some (jsonStringify fmt (toJson L))) := by
  simp only [startup, saveTodos, setItem, getItem, h, loadTodos, loadTodosTry_of_saved, bind,
    Except.bind, pure, Except.pure, Except.map, if_true]

theorem startup_of_read_error (fmt : ℚ → JsString) (store : Storage) (e : JsError) :
    (startup fmt store (some e)).map (fun r => (r.writes, r.state.todos, r.store todosKey)) =
      .ok ([jsonStringify fmt (.arr [])], .arr [], some (jsonStringify fmt (.arr []))) := by
  simp only [startup, saveTodos, setItem, getItem, loadTodos, loadTodosTry, bind,
    Except.bind, pure, Except.pure, Except.map, if_true]

/-- C10: with the one-item list `[{id: 1, text: "A", completed: false}]`
persisted, the start of the app issues two writes to `'todos'`.  The first,
from the save effect of the first render, carries `[]`, which deserializes
to the empty list and not to the persisted one; only the second carries the
persisted list.  When the read fails the first write is the only one and
`'todos'` ends up holding `[]`. -/
theorem startup_first_write_is_empty_list (fmt : ℚ → JsString) :
    (startup fmt (fun k => if k = todosKey then
        some (jsonStringify fmt (toJson [⟨1, utf16 "A", false⟩])) else none) none).map
      (fun r => r.writes) =
      .ok [utf16 "[]", jsonStringify fmt (toJson [⟨1, utf16 "A", false⟩])] ∧
    jsonParse (utf16 "[]") = some (toJson []) ∧
    toJson [] ≠ toJson [⟨1, utf16 "A", false⟩] ∧
    (startup fmt (fun k => if k = todosKey then
        some (jsonStringify fmt (toJson [⟨1, utf16 "A", false⟩])) else none)
      (some (.storage 5))).map (fun r => (r.writes, r.store todosKey)) =
      .ok ([utf16 "[]"], some (utf16 "[]")) := by
  have hempty : jsonStringify fmt (.arr []) = utf16 "[]" := by
    rw [jsonStringify_arr]; rfl
  refine ⟨?_, rfl, ?_, ?_⟩
  · have h := startup_of_saved fmt [⟨1, utf16 "A", false⟩]
      (fun k => if k = todosKey then
        some (jsonStringify fmt (toJson [⟨1, utf16 "A", false⟩])) else none) (by simp)
    rw [hempty] at h
    cases hs : startup fmt (fun k => if k = todosKey then
        some (jsonStringify fmt (toJson [⟨1, utf16 "A", false⟩])) else none) none with
    | error e => rw [hs] at h; simp [Except.map] at h
    | ok r =>
      rw [hs] at h
      simp only [Except.map, Except.ok.injEq, Prod.mk.injEq] at h ⊢
      exact h.1
  · intro h
    have := toJson_injective h
    exact absurd this (by decide)
  · have h := startup_of_read_error fmt
      (fun k => if k = todosKey then
        some (jsonStringify fmt (toJson [⟨1, utf16 "A", false⟩])) else none) (.storage 5)
    rw [hempty] at h
    cases hs : startup fmt (fun k => if k = todosKey then
        some (jsonStringify fmt (toJson [⟨1, utf16 "A", false⟩])) else none)
        (some (.storage 5)) with
    | error e => rw [hs] at h; simp [Except.map] at h
    | ok r =>
      rw [hs] at h
      simp only [Except.map, Except.ok.injEq, Prod.mk.injEq] at h ⊢
      exact ⟨h.1, h.2.2⟩

end Mobil
